import Mathlib

/-!
Verification of fse/models/average.py (Fast_Sentence_Embeddings).

The module computes averaged sentence embeddings. Its algorithmic core is
train_average_np, which processes a batch of indexed sentences and writes
one vector per sentence into a caller-owned target matrix, returning the
pair (effective sentences, effective words). Two modes exist, selected once
per job by model.is_ft: Mode A (plain vocabulary averaging) and Mode B
(FastText sub-word fallback via n-gram hash buckets).

Floats are modelled as rationals; the astype(REAL) storage cast is the
identity in this model. Matrices are lists of rows; numpy fancy indexing
with a row-index list followed by a sum over axis 0 becomes a fold of
elementwise vector addition. The external collaborators (gensim vocabulary
lookup and ft_ngram_hashes) are abstract functions carried by the model
record, exactly as the spec treats them: a token-to-row-index lookup and a
stable hashing function from a token to a bounded set of bucket indices.
-/

abbrev Token := String

abbrev Vec := List ℚ

def vecZeros (n : Nat) : Vec := List.replicate n 0

def vecAdd (a b : Vec) : Vec := List.zipWith (fun x y => x + y) a b

def vecSmul (c : ℚ) (v : Vec) : Vec := v.map (fun x => c * x)

def vecDivNat (v : Vec) (n : Nat) : Vec := v.map (fun x => x / (n : ℚ))

/-- An ordered sequence of tokens paired with a destination row index,
mirroring fse.inputs.IndexedSentence. -/
structure IndexedSentence where
  words : List Token
  index : Nat

/-- The slice of BaseSentence2VecModel that train_average_np reads:
vector_size, the vocabulary lookup (membership and row index combined into
an Option), the embedding matrices, the weight table, the is_ft flag, and
the abstract n-gram hashing collaborator ft_ngram_hashes(word, min_n,
max_n, bucket, True) from gensim. -/
structure Model where
  vector_size : Nat
  vocab : Token → Option Nat
  vectors : List Vec
  word_weights : List ℚ
  is_ft : Bool
  vectors_vocab : List Vec
  vectors_ngrams : List Vec
  ngram_hashes : Token → List Nat

/-- np_max over a list, as used for oov_weight = np_max(w_weights). -/
def listMax : List ℚ → ℚ
  | [] => 0
  | x :: xs => xs.foldl max x

/-- oov_weight = np_max(w_weights), computed once per job in the is_ft
branch of train_average_np. -/
def oov_weight (m : Model) : ℚ := listMax m.word_weights

/-- Mode A numerator: np_sum(np_mult(w_vectors[word_indices],
w_weights[word_indices][:,None]), axis=0). -/
def weightedSum (m : Model) (idxs : List Nat) : Vec :=
  idxs.foldl
    (fun acc i =>
      vecAdd acc (vecSmul (m.word_weights.getD i 0) (m.vectors.getD i (vecZeros m.vector_size))))
    (vecZeros m.vector_size)

/-- One token of the Mode B inner loop: in-vocabulary tokens add
embedding times weight; out-of-vocabulary tokens add oov_weight times the
mean of the n-gram embedding rows at their hash indices, or nothing when
the hash set is empty (the continue branch). Note Mode B reads
wv.vectors_vocab, not wv.vectors. -/
def tokenContribB (m : Model) (acc : Vec) (word : Token) : Vec :=
  match m.vocab word with
  | some word_index =>
      vecAdd acc
        (vecSmul (m.word_weights.getD word_index 0)
          (m.vectors_vocab.getD word_index (vecZeros m.vector_size)))
  | none =>
      let ngram_hashes := m.ngram_hashes word
      if ngram_hashes.length = 0 then acc
      else
        vecAdd acc
          (vecSmul (oov_weight m)
            (vecDivNat
              (ngram_hashes.foldl
                (fun a h => vecAdd a (m.vectors_ngrams.getD h (vecZeros m.vector_size)))
                (vecZeros m.vector_size))
              ngram_hashes.length))

/-- The evolving state of the training loop: the target matrix plus the
two effective counters. -/
structure TrainState where
  target : List Vec
  eff_sentences : Nat
  eff_words : Nat

/-- Body of the Mode A (not is_ft) loop of train_average_np: resolve the
tokens through the vocabulary, skip the sentence when none resolve,
otherwise write the weighted sum scaled by 1/len(word_indices) into row
sent_adr and bump both counters. -/
def stepA (m : Model) (st : TrainState) (obj : IndexedSentence) : TrainState :=
  let word_indices := obj.words.filterMap m.vocab
  if word_indices.length = 0 then st
  else
    { target :=
        st.target.set obj.index
          (vecSmul (1 / (word_indices.length : ℚ)) (weightedSum m word_indices))
      eff_sentences := st.eff_sentences + 1
      eff_words := st.eff_words + word_indices.length }

/-- Body of the Mode B (is_ft) loop of train_average_np: skip empty
sentences, otherwise accumulate every token via tokenContribB starting
from zeros(size), write the accumulator divided by len(sent) into row
sent_adr, and count every token of the sentence. -/
def stepB (m : Model) (st : TrainState) (obj : IndexedSentence) : TrainState :=
  if obj.words.length = 0 then st
  else
    { target :=
        st.target.set obj.index
          (vecDivNat (obj.words.foldl (tokenContribB m) (vecZeros m.vector_size))
            obj.words.length)
      eff_sentences := st.eff_sentences + 1
      eff_words := st.eff_words + obj.words.length }

/-- train_average_np: run the mode-selected loop over the batch starting
from the caller-owned target and zeroed counters; return the updated
target together with (eff_sentences, eff_words). -/
def train_average_np (m : Model) (indexed_sentences : List IndexedSentence)
    (target : List Vec) : List Vec × Nat × Nat :=
  let final :=
    if m.is_ft then indexed_sentences.foldl (stepB m) ⟨target, 0, 0⟩
    else indexed_sentences.foldl (stepA m) ⟨target, 0, 0⟩
  (final.target, final.eff_sentences, final.eff_words)

/-- Module-level selection: the optimized cython import is commented out
in the source, so train_average is the numpy implementation. -/
def train_average := train_average_np

/-- Average._do_train_job: forwards the batch and target to train_average
and returns its result pair unchanged. -/
def Average.do_train_job (m : Model) (data_iterable : List IndexedSentence)
    (target : List Vec) : List Vec × Nat × Nat :=
  train_average m data_iterable target

/-- Average._check_parameter_sanity: raise ValueError unless all word
weights equal one. -/
def check_parameter_sanity (word_weights : List ℚ) : Except String Unit :=
  if word_weights.all (fun w => w == 1) then Except.ok ()
  else Except.error ("All word weights must equal one for averaging")

/-- Modelled from the spec: the orchestration layer (base_s2v.py, not part
of the averaging core) runs the configuration check at setup time, before
any batch is processed and before any output row is written; on failure
the job never starts. -/
def setup_and_train (m : Model) (sentences : List IndexedSentence)
    (target : List Vec) : Except String (List Vec × Nat × Nat) :=
  match check_parameter_sanity m.word_weights with
  | Except.error e => Except.error e
  | Except.ok _ => Except.ok (train_average_np m sentences target)

/-- Spec-side sum of a list of vectors. -/
def sumVecs (l : List Vec) (size : Nat) : Vec := l.foldl vecAdd (vecZeros size)

/-- Whether train_average_np writes the destination row of a sentence:
in Mode B any non-empty sentence, in Mode A any sentence with at least one
resolved token. -/
def writesRow (m : Model) (obj : IndexedSentence) : Bool :=
  if m.is_ft then decide (obj.words.length ≠ 0)
  else decide ((obj.words.filterMap m.vocab).length ≠ 0)

/-- The value train_average_np writes for a sentence, a function of the
model and the sentence only. -/
def rowValue (m : Model) (obj : IndexedSentence) : Vec :=
  if m.is_ft then
    vecDivNat (obj.words.foldl (tokenContribB m) (vecZeros m.vector_size)) obj.words.length
  else
    vecSmul (1 / ((obj.words.filterMap m.vocab).length : ℚ))
      (weightedSum m (obj.words.filterMap m.vocab))

/-- The tokens a sentence contributes to eff_words: all of them in Mode B,
the resolved ones in Mode A. -/
def sentLen (m : Model) (obj : IndexedSentence) : Nat :=
  if m.is_ft then obj.words.length else (obj.words.filterMap m.vocab).length

/-- The ordered list of (row, value) writes a batch performs. -/
def writeList (m : Model) (sents : List IndexedSentence) : List (Nat × Vec) :=
  (sents.filter (writesRow m)).map (fun obj => (obj.index, rowValue m obj))

/-- Apply a list of row writes to a target matrix in order. -/
def applyWrites (ws : List (Nat × Vec)) (t : List Vec) : List Vec :=
  ws.foldl (fun t p => t.set p.1 p.2) t

/-- Number of effective sentences of a batch. -/
def numEff (m : Model) (sents : List IndexedSentence) : Nat :=
  (sents.filter (writesRow m)).length

/-- Number of effective words of a batch. -/
def numWords (m : Model) (sents : List IndexedSentence) : Nat :=
  ((sents.filter (writesRow m)).map (sentLen m)).sum

/-- The value of the last write in ws that targets row j, if any. -/
def lastVal (ws : List (Nat × Vec)) (j : Nat) : Option Vec :=
  match ws with
  | [] => none
  | p :: rest =>
    match lastVal rest j with
    | some v => some v
    | none => if p.1 = j then some p.2 else none

theorem applyWrites_cons (p : Nat × Vec) (ws : List (Nat × Vec)) (t : List Vec) :
    applyWrites (p :: ws) t = applyWrites ws (t.set p.1 p.2) := rfl

theorem applyWrites_length (ws : List (Nat × Vec)) : ∀ (t : List Vec),
    (applyWrites ws t).length = t.length := by
  induction ws with
  | nil => intro t; rfl
  | cons p ws ih => intro t; rw [applyWrites_cons, ih, List.length_set]

theorem applyWrites_getElem? (ws : List (Nat × Vec)) : ∀ (t : List Vec) (j : Nat),
    (applyWrites ws t)[j]? =
      match lastVal ws j with
      | some v => if j < t.length then some v else none
      | none => t[j]? := by
  induction ws with
  | nil => intro t j; simp [applyWrites, lastVal]
  | cons p ws ih =>
    intro t j
    rw [applyWrites_cons, ih]
    cases h : lastVal ws j with
    | some v => simp [lastVal, h, List.length_set]
    | none =>
      by_cases hj : p.1 = j
      · subst hj; simp [lastVal, h, List.getElem?_set]
      · simp [lastVal, h, hj, List.getElem?_set]

theorem applyWrites_idem (ws : List (Nat × Vec)) (t : List Vec) :
    applyWrites ws (applyWrites ws t) = applyWrites ws t := by
  apply List.ext_getElem?
  intro j
  rw [applyWrites_getElem?, applyWrites_getElem?]
  cases h : lastVal ws j with
  | some v => simp [h, applyWrites_length]
  | none => simp [h]

theorem lastVal_eq_none (ws : List (Nat × Vec)) (j : Nat)
    (h : ∀ p ∈ ws, p.1 ≠ j) : lastVal ws j = none := by
  induction ws with
  | nil => rfl
  | cons p ws ih =>
    have hp : p.1 ≠ j := h p (List.mem_cons_self p ws)
    have := ih (fun q hq => h q (List.mem_cons_of_mem p hq))
    simp [lastVal, this, hp]

theorem foldlA_eq (m : Model) (hft : m.is_ft = false) :
    ∀ (sents : List IndexedSentence) (st : TrainState),
    sents.foldl (stepA m) st =
      ⟨applyWrites (writeList m sents) st.target,
       st.eff_sentences + numEff m sents,
       st.eff_words + numWords m sents⟩ := by
  intro sents
  induction sents with
  | nil => intro st; simp [writeList, applyWrites, numEff, numWords]
  | cons obj rest ih =>
    intro st
    rw [List.foldl_cons, ih]
    by_cases h : (obj.words.filterMap m.vocab).length = 0
    · have hw : writesRow m obj = false := by simp [writesRow, hft, h]
      simp [stepA, h, writeList, List.filter_cons, hw, numEff, numWords]
    · have hw : writesRow m obj = true := by simp [writesRow, hft, h]
      simp only [stepA, h, if_false, writeList, List.filter_cons, hw, if_true,
        numEff, numWords, List.map_cons, List.length_cons, List.sum_cons,
        applyWrites_cons, rowValue, hft, Bool.false_eq_true, sentLen,
        TrainState.mk.injEq]
      refine ⟨trivial, by omega, by omega⟩

theorem foldlB_eq (m : Model) (hft : m.is_ft = true) :
    ∀ (sents : List IndexedSentence) (st : TrainState),
    sents.foldl (stepB m) st =
      ⟨applyWrites (writeList m sents) st.target,
       st.eff_sentences + numEff m sents,
       st.eff_words + numWords m sents⟩ := by
  intro sents
  induction sents with
  | nil => intro st; simp [writeList, applyWrites, numEff, numWords]
  | cons obj rest ih =>
    intro st
    rw [List.foldl_cons, ih]
    by_cases h : obj.words.length = 0
    · have hw : writesRow m obj = false := by simp [writesRow, hft, h]
      simp [stepB, h, writeList, List.filter_cons, hw, numEff, numWords]
    · have hw : writesRow m obj = true := by simp [writesRow, hft, h]
      simp only [stepB, h, if_false, writeList, List.filter_cons, hw, if_true,
        numEff, numWords, List.map_cons, List.length_cons, List.sum_cons,
        applyWrites_cons, rowValue, hft, if_true, sentLen,
        TrainState.mk.injEq]
      refine ⟨trivial, by omega, by omega⟩

theorem train_eq (m : Model) (sents : List IndexedSentence) (t : List Vec) :
    train_average_np m sents t =
      (applyWrites (writeList m sents) t, numEff m sents, numWords m sents) := by
  cases hft : m.is_ft with
  | false => simp [train_average_np, hft, foldlA_eq m hft sents ⟨t, 0, 0⟩]
  | true => simp [train_average_np, hft, foldlB_eq m hft sents ⟨t, 0, 0⟩]

theorem weightedSum_eq (m : Model) (idxs : List Nat) :
    weightedSum m idxs =
      sumVecs
        (idxs.map (fun i =>
          vecSmul (m.word_weights.getD i 0) (m.vectors.getD i (vecZeros m.vector_size))))
        m.vector_size := by
  simp [weightedSum, sumVecs, List.foldl_map]

theorem vecSmul_one (v : Vec) : vecSmul 1 v = v := by
  simp [vecSmul]

theorem vecDivNat_zeros (n k : Nat) : vecDivNat (vecZeros n) k = vecZeros n := by
  simp [vecDivNat, vecZeros, List.map_replicate]

theorem length_filterMap_of_isSome {α β : Type} (f : α → Option β) :
    ∀ (l : List α), (∀ a ∈ l, (f a).isSome = true) → (l.filterMap f).length = l.length := by
  intro l
  induction l with
  | nil => intro _; rfl
  | cons a l ih =>
    intro h
    cases hfa : f a with
    | none =>
      have := h a (List.mem_cons_self a l)
      rw [hfa] at this
      simp at this
    | some b =>
      simp only [List.filterMap_cons, hfa, List.length_cons]
      rw [ih (fun x hx => h x (List.mem_cons_of_mem a hx))]

theorem le_foldl_max (xs : List ℚ) : ∀ a : ℚ, a ≤ xs.foldl max a := by
  induction xs with
  | nil => intro a; exact le_refl a
  | cons x xs ih => intro a; exact le_trans (le_max_left a x) (ih (max a x))

theorem mem_le_foldl_max (xs : List ℚ) : ∀ (a w : ℚ), w ∈ xs → w ≤ xs.foldl max a := by
  induction xs with
  | nil => intro a w h; cases h
  | cons x xs ih =>
    intro a w h
    rcases List.mem_cons.mp h with h1 | h2
    · subst h1; exact le_trans (le_max_right a w) (le_foldl_max xs (max a w))
    · exact ih (max a x) w h2

theorem foldl_max_mem (xs : List ℚ) : ∀ a : ℚ, xs.foldl max a = a ∨ xs.foldl max a ∈ xs := by
  induction xs with
  | nil => intro a; exact Or.inl rfl
  | cons x xs ih =>
    intro a
    rw [List.foldl_cons]
    rcases ih (max a x) with h | h
    · rcases max_choice a x with h1 | h1
      · exact Or.inl (h.trans h1)
      · exact Or.inr (by rw [h, h1]; exact List.mem_cons_self x xs)
    · exact Or.inr (List.mem_cons_of_mem x h)

theorem oov_weight_le (m : Model) (w : ℚ) (hw : w ∈ m.word_weights) :
    w ≤ oov_weight m := by
  unfold oov_weight listMax
  cases hmw : m.word_weights with
  | nil => rw [hmw] at hw; cases hw
  | cons x xs =>
    rw [hmw] at hw
    rcases List.mem_cons.mp hw with h | h
    · subst h; exact le_foldl_max xs w
    · exact mem_le_foldl_max xs x w h

theorem oov_weight_mem (m : Model) (hne : m.word_weights ≠ []) :
    oov_weight m ∈ m.word_weights := by
  unfold oov_weight listMax
  cases hmw : m.word_weights with
  | nil => exact absurd hmw hne
  | cons x xs =>
    show List.foldl max x xs ∈ x :: xs
    rcases foldl_max_mem xs x with h | h
    · rw [h]; exact List.mem_cons_self x xs
    · exact List.mem_cons_of_mem x h

/-- Claim C1: in Mode A, for a sentence with at least one resolved token,
the row written at the destination index is the sum over resolved tokens
of embedding times scalar weight, divided by the count of resolved tokens;
under unit weights with every token resolving this is the arithmetic mean
of the token embeddings (exact, since storage is modelled exactly). -/
theorem claim_C1 (m : Model) (hft : m.is_ft = false) (t : List Vec)
    (obj : IndexedSentence) (hres : obj.words.filterMap m.vocab ≠ []) :
    (train_average_np m [obj] t).1 =
      t.set obj.index
        (vecSmul (1 / ((obj.words.filterMap m.vocab).length : ℚ))
          (sumVecs
            ((obj.words.filterMap m.vocab).map
              (fun i =>
                vecSmul (m.word_weights.getD i 0) (m.vectors.getD i (vecZeros m.vector_size))))
            m.vector_size)) ∧
    ((∀ w ∈ obj.words, (m.vocab w).isSome = true) →
      (∀ i ∈ obj.words.filterMap m.vocab, m.word_weights.getD i 0 = 1) →
      (train_average_np m [obj] t).1 =
        t.set obj.index
          (vecSmul (1 / (obj.words.length : ℚ))
            (sumVecs
              ((obj.words.filterMap m.vocab).map
                (fun i => m.vectors.getD i (vecZeros m.vector_size)))
              m.vector_size))) := by
  have hlen : (obj.words.filterMap m.vocab).length ≠ 0 := by
    simpa [List.length_eq_zero] using hres
  have hmain : (train_average_np m [obj] t).1 =
      t.set obj.index
        (vecSmul (1 / ((obj.words.filterMap m.vocab).length : ℚ))
          (weightedSum m (obj.words.filterMap m.vocab))) := by
    simp [train_average_np, hft, stepA, hlen]
  constructor
  · rw [hmain, weightedSum_eq]
  · intro hall hunit
    rw [hmain, weightedSum_eq]
    have hlen2 : (obj.words.filterMap m.vocab).length = obj.words.length :=
      length_filterMap_of_isSome m.vocab obj.words hall
    rw [hlen2]
    have hmap : (obj.words.filterMap m.vocab).map
        (fun i =>
          vecSmul (m.word_weights.getD i 0) (m.vectors.getD i (vecZeros m.vector_size))) =
        (obj.words.filterMap m.vocab).map
          (fun i => m.vectors.getD i (vecZeros m.vector_size)) := by
      apply List.map_congr_left
      intro i hi
      rw [hunit i hi, vecSmul_one]
    rw [hmap]

/-- Claim C2: in Mode B, for every non-empty sentence, the written row is
the accumulator divided by the total token count (resolved plus
unresolved); the accumulator adds embedding times weight for each
in-vocabulary token and oov_weight times the mean of the n-gram embedding
rows at the hash indices for each out-of-vocabulary token with a non-empty
hash set; oov_weight is the maximum of the weight table. -/
theorem claim_C2 (m : Model) (hft : m.is_ft = true) (t : List Vec)
    (obj : IndexedSentence) (hne : obj.words ≠ []) :
    (train_average_np m [obj] t).1 =
      t.set obj.index
        (vecDivNat (obj.words.foldl (tokenContribB m) (vecZeros m.vector_size))
          obj.words.length) ∧
    (∀ w ∈ m.word_weights, w ≤ oov_weight m) ∧
    (m.word_weights ≠ [] → oov_weight m ∈ m.word_weights) ∧
    (∀ (acc : Vec) (word : Token) (i : Nat), m.vocab word = some i →
      tokenContribB m acc word =
        vecAdd acc
          (vecSmul (m.word_weights.getD i 0)
            (m.vectors_vocab.getD i (vecZeros m.vector_size)))) ∧
    (∀ (acc : Vec) (word : Token), m.vocab word = none → m.ngram_hashes word ≠ [] →
      tokenContribB m acc word =
        vecAdd acc
          (vecSmul (oov_weight m)
            (vecDivNat
              (sumVecs
                ((m.ngram_hashes word).map
                  (fun h => m.vectors_ngrams.getD h (vecZeros m.vector_size)))
                m.vector_size)
              (m.ngram_hashes word).length))) := by
  have hlen : obj.words.length ≠ 0 := by simpa [List.length_eq_zero] using hne
  refine ⟨by simp [train_average_np, hft, stepB, hlen],
    fun w hw => oov_weight_le m w hw, oov_weight_mem m, ?_, ?_⟩
  · intro acc word i hi
    simp [tokenContribB, hi]
  · intro acc word hnone hh
    have hhl : (m.ngram_hashes word).length ≠ 0 := by
      simpa [List.length_eq_zero] using hh
    simp [tokenContribB, hnone, hhl, sumVecs, List.foldl_map]

/-- Claim C3: in Mode B a non-empty sentence bumps the effective-sentence
count by exactly 1 and the effective-token count by the total sentence
length, with no hypothesis on how many tokens resolve; an empty sentence
bumps neither and leaves the target untouched. -/
theorem claim_C3 (m : Model) (hft : m.is_ft = true) (t : List Vec)
    (obj : IndexedSentence) :
    (obj.words ≠ [] →
      (train_average_np m [obj] t).2.1 = 1 ∧
      (train_average_np m [obj] t).2.2 = obj.words.length) ∧
    (obj.words = [] →
      (train_average_np m [obj] t).2.1 = 0 ∧
      (train_average_np m [obj] t).2.2 = 0 ∧
      (train_average_np m [obj] t).1 = t) := by
  constructor
  · intro hne
    have hlen : obj.words.length ≠ 0 := by simpa [List.length_eq_zero] using hne
    constructor <;> simp [train_average_np, hft, stepB, hlen]
  · intro he
    have hlen : obj.words.length = 0 := by simp [he]
    refine ⟨?_, ?_, ?_⟩ <;> simp [train_average_np, hft, stepB, hlen]

/-- Claim C4: in Mode A a sentence in which zero tokens resolve is
silently skipped: the target is returned unchanged, both counters stay
zero, and the function returns normally. -/
theorem claim_C4 (m : Model) (hft : m.is_ft = false) (t : List Vec)
    (obj : IndexedSentence) (hres : obj.words.filterMap m.vocab = []) :
    train_average_np m [obj] t = (t, 0, 0) := by
  simp [train_average_np, hft, stepA, hres]

/-- Claim C5: with any non-unit weight in the table the configuration
check fails with the ValueError message before any training is run, so no
output row is ever written; with an all-ones table the check passes and
training proceeds. The placement of the check before batch processing is
modelled from the spec (setup_and_train). -/
theorem claim_C5 (m : Model) (sents : List IndexedSentence) (t : List Vec) :
    ((∃ w ∈ m.word_weights, w ≠ 1) →
      setup_and_train m sents t =
        Except.error ("All word weights must equal one for averaging")) ∧
    ((∀ w ∈ m.word_weights, w = 1) →
      setup_and_train m sents t = Except.ok (train_average_np m sents t)) := by
  constructor
  · rintro ⟨w, hw, hne⟩
    have hall : m.word_weights.all (fun w => w == 1) = false := by
      rw [List.all_eq_false]
      exact ⟨w, hw, by simpa using hne⟩
    simp [setup_and_train, check_parameter_sanity, hall]
  · intro h1
    have hall : m.word_weights.all (fun w => w == 1) = true := by
      rw [List.all_eq_true]
      intro w hw
      simpa using h1 w hw
    simp [setup_and_train, check_parameter_sanity, hall]

/-- Claim C6: a batch only mutates the destination rows of the sentences
it actually writes: every other row index reads back unchanged and the
target matrix keeps its length (never resized); all other inputs are
read-only by construction of the model. -/
theorem claim_C6 (m : Model) (sents : List IndexedSentence) (t : List Vec)
    (j : Nat) (hj : j ∉ (writeList m sents).map Prod.fst) :
    (train_average_np m sents t).1[j]? = t[j]? ∧
    (train_average_np m sents t).1.length = t.length := by
  rw [train_eq]
  constructor
  · rw [applyWrites_getElem?]
    have h0 : lastVal (writeList m sents) j = none := by
      apply lastVal_eq_none
      intro p hp hpj
      exact hj (by rw [← hpj]; exact List.mem_map_of_mem Prod.fst hp)
    rw [h0]
  · exact applyWrites_length _ _

/-- Claim C7: in Mode B an out-of-vocabulary token with an empty n-gram
hash set contributes exactly nothing to the accumulator and raises no
error; the fold over the remaining tokens of the sentence proceeds as if
the token were absent. -/
theorem claim_C7 (m : Model) (acc : Vec) (word : Token) (l1 l2 : List Token)
    (hoov : m.vocab word = none) (hhash : m.ngram_hashes word = []) :
    tokenContribB m acc word = acc ∧
    (l1 ++ word :: l2).foldl (tokenContribB m) acc =
      (l1 ++ l2).foldl (tokenContribB m) acc := by
  have h1 : ∀ a : Vec, tokenContribB m a word = a := by
    intro a
    simp [tokenContribB, hoov, hhash]
  refine ⟨h1 acc, ?_⟩
  rw [List.foldl_append, List.foldl_append, List.foldl_cons, h1]

/-- Claim C8: the computation is a pure deterministic function of its
inputs; re-running the same batch over the already-written target yields
bit-identical rows and the same (eff_sentences, eff_words) pair. -/
theorem claim_C8 (m : Model) (sents : List IndexedSentence) (t : List Vec) :
    train_average_np m sents (train_average_np m sents t).1 =
      train_average_np m sents t := by
  simp only [train_eq]
  simp [applyWrites_idem]

/-- Claim C9: the orchestration shim forwards its arguments to the
module-selected training function (the numpy implementation, since the
cython import is absent) and returns its result pair unchanged. -/
theorem claim_C9 (m : Model) (d : List IndexedSentence) (t : List Vec) :
    Average.do_train_job m d t = train_average_np m d t ∧
    (Average.do_train_job m d t).2 = (train_average_np m d t).2 :=
  ⟨rfl, rfl⟩

/-- Claim C10: in Mode B a non-empty sentence whose tokens are all
out-of-vocabulary with empty hash sets still gets its row written, as the
zero vector, and is counted as effective; the same sentence under Mode A
leaves the target untouched and counts nothing. -/
theorem claim_C10 (m : Model) (hft : m.is_ft = true) (t : List Vec)
    (obj : IndexedSentence) (hne : obj.words ≠ [])
    (hall : ∀ w ∈ obj.words, m.vocab w = none ∧ m.ngram_hashes w = []) :
    (train_average_np m [obj] t).1 = t.set obj.index (vecZeros m.vector_size) ∧
    (train_average_np m [obj] t).2 = (1, obj.words.length) ∧
    train_average_np { m with is_ft := false } [obj] t = (t, 0, 0) := by
  have hlen : obj.words.length ≠ 0 := by simpa [List.length_eq_zero] using hne
  have hacc : ∀ (l : List Token),
      (∀ w ∈ l, m.vocab w = none ∧ m.ngram_hashes w = []) →
      ∀ a : Vec, l.foldl (tokenContribB m) a = a := by
    intro l
    induction l with
    | nil => intro _ a; rfl
    | cons x l ih =>
      intro h a
      rw [List.foldl_cons]
      have hx := h x (List.mem_cons_self x l)
      rw [show tokenContribB m a x = a by simp [tokenContribB, hx.1, hx.2]]
      exact ih (fun w hw => h w (List.mem_cons_of_mem x hw)) a
  refine ⟨?_, ?_, ?_⟩
  · simp [train_average_np, hft, stepB, hlen, hacc obj.words hall, vecDivNat_zeros]
  · simp [train_average_np, hft, stepB, hlen]
  · have hres : obj.words.filterMap m.vocab = [] :=
      List.filterMap_eq_nil_iff.mpr (fun a ha => (hall a ha).1)
    simp [train_average_np, stepA, hres]

/-- Concrete vocabulary of spec scenario 1. -/
def exVocab : Token → Option Nat
  | "cat" => some 0
  | "say" => some 1
  | "meow" => some 2
  | _ => none

/-- Concrete n-gram hashing of spec scenario 3: only dog has buckets. -/
def exHashes : Token → List Nat
  | "dog" => [1, 3]
  | _ => []

/-- Concrete Mode A model with three 2-dimensional embeddings and unit
weights. -/
def exModelA : Model :=
  { vector_size := 2
    vocab := exVocab
    vectors := [[1, 0], [0, 1], [1, 1]]
    word_weights := [1, 1, 1]
    is_ft := false
    vectors_vocab := []
    vectors_ngrams := []
    ngram_hashes := fun _ => [] }

/-- Concrete Mode B model with four n-gram buckets. -/
def exModelB : Model :=
  { vector_size := 2
    vocab := exVocab
    vectors := []
    word_weights := [1, 1, 1]
    is_ft := true
    vectors_vocab := [[1, 0], [0, 1], [1, 1]]
    vectors_ngrams := [[0, 0], [1, 3], [0, 0], [3, 5]]
    ngram_hashes := exHashes }

/-- A model with a non-unit weight, rejected by the sanity check. -/
def exModelBad : Model := { exModelA with word_weights := [1, 2, 1] }

theorem exVocab_dog : exVocab ("dog") = none := by decide

theorem exVocab_cat : exVocab ("cat") = some 0 := by decide

theorem exHashes_dog : exHashes ("dog") = [1, 3] := by decide

theorem claim_C1_witness :
    (train_average_np exModelA [⟨["cat", "say", "meow"], 0⟩] [[0, 0]]).1 =
      [[2/3, 2/3]] :=
  ((claim_C1 exModelA rfl [[0, 0]] ⟨["cat", "say", "meow"], 0⟩
    (by decide)).2 (by decide) (by decide)).trans
    (by norm_num [exModelA, exVocab, vecSmul, sumVecs, vecAdd, vecZeros,
      List.filterMap_cons, List.filterMap_nil, List.getD, List.replicate,
      List.foldl_cons, List.foldl_nil])

theorem claim_C2_witness :
    (train_average_np exModelB [⟨["dog", "cat"], 0⟩] [[0, 0]]).1 = [[3/2, 2]] :=
  ((claim_C2 exModelB rfl [[0, 0]] ⟨["dog", "cat"], 0⟩ (by decide)).1).trans
    (by norm_num [exModelB, exVocab_dog, exVocab_cat, exHashes_dog,
      tokenContribB, vecDivNat, vecAdd, vecSmul, vecZeros, oov_weight,
      listMax, List.getD, List.replicate, List.foldl_cons, List.foldl_nil])

theorem claim_C3_witness :
    (train_average_np exModelB [⟨["dog", "qq"], 0⟩] [[0, 0]]).2.1 = 1 ∧
    (train_average_np exModelB [⟨["dog", "qq"], 0⟩] [[0, 0]]).2.2 = 2 ∧
    (train_average_np exModelB [⟨([] : List Token), 1⟩] [[0, 0]]).2.1 = 0 :=
  ⟨((claim_C3 exModelB rfl [[0, 0]] ⟨["dog", "qq"], 0⟩).1 (by decide)).1,
   ((claim_C3 exModelB rfl [[0, 0]] ⟨["dog", "qq"], 0⟩).1 (by decide)).2,
   ((claim_C3 exModelB rfl [[0, 0]] ⟨([] : List Token), 1⟩).2 rfl).1⟩

theorem claim_C4_witness :
    train_average_np exModelA [⟨["dog"], 0⟩] [[5, 5]] = ([[5, 5]], 0, 0) :=
  claim_C4 exModelA rfl [[5, 5]] ⟨["dog"], 0⟩ (by decide)

theorem claim_C5_witness :
    setup_and_train exModelBad [] [] =
      Except.error ("All word weights must equal one for averaging") ∧
    setup_and_train exModelA [] [[0, 0]] =
      Except.ok (train_average_np exModelA [] [[0, 0]]) :=
  ⟨(claim_C5 exModelBad [] []).1 (by decide),
   (claim_C5 exModelA [] [[0, 0]]).2 (by decide)⟩

theorem claim_C6_witness :
    (train_average_np exModelA [⟨["cat"], 0⟩] [[0, 0], [7, 8]]).1[1]? =
      some [7, 8] ∧
    (train_average_np exModelA [⟨["cat"], 0⟩] [[0, 0], [7, 8]]).1.length = 2 :=
  ⟨((claim_C6 exModelA [⟨["cat"], 0⟩] [[0, 0], [7, 8]] 1 (by decide)).1).trans
      (by simp),
   (claim_C6 exModelA [⟨["cat"], 0⟩] [[0, 0], [7, 8]] 1 (by decide)).2⟩

theorem claim_C7_witness :
    tokenContribB exModelB [0, 0] ("zz") = [0, 0] ∧
    (["cat", "zz", "say"] : List Token).foldl (tokenContribB exModelB) [0, 0] =
      (["cat", "say"] : List Token).foldl (tokenContribB exModelB) [0, 0] :=
  claim_C7 exModelB [0, 0] ("zz") ["cat"] ["say"] (by decide) (by decide)

theorem claim_C10_witness :
    (train_average_np exModelB [⟨["qq", "zz"], 0⟩] [[9, 9]]).1 = [[0, 0]] ∧
    (train_average_np exModelB [⟨["qq", "zz"], 0⟩] [[9, 9]]).2 = (1, 2) ∧
    train_average_np { exModelB with is_ft := false } [⟨["qq", "zz"], 0⟩]
      [[9, 9]] = ([[9, 9]], 0, 0) :=
  ⟨((claim_C10 exModelB rfl [[9, 9]] ⟨["qq", "zz"], 0⟩ (by decide)
      (by decide)).1).trans (by norm_num [exModelB, vecZeros, List.replicate]),
   (claim_C10 exModelB rfl [[9, 9]] ⟨["qq", "zz"], 0⟩ (by decide)
      (by decide)).2.1,
   (claim_C10 exModelB rfl [[9, 9]] ⟨["qq", "zz"], 0⟩ (by decide)
      (by decide)).2.2⟩
